import Mathlib

/-!
Verification of the spirius-smpp-tools repository (Python sources under
`src/common/smpp_common.py` and `src/tools/smpp_receiver.py`) against its
natural-language specification.

Modelling conventions
* Python byte strings are `List Nat` (each element one byte value).
* Python text strings are `List Char`.
* Fallible operations return `Option`; a raised exception is `none`, and a
  Python function that either raises `ValueError` or returns silently is
  modelled as a `Bool` acceptance predicate.
-/

/-- Modelled from the spec: `smpplib.gsm.GSM_CHARACTER_TABLE` is an external
library constant not present under `src/`.  The spec (§4.2) describes it as a
fixed 128+128-entry character table mirroring the standard GSM default
alphabet with its escape extension.  The first 128 entries are the base GSM
default alphabet; index `0x1B` is the escape marker itself. -/
def gsmBase : List Char :=
  ['@', '£', '$', '¥', 'è', 'é', 'ù', 'ì', 'ò', 'Ç', '\n', 'Ø', 'ø', '\r', 'Å', 'å',
   'Δ', '_', 'Φ', 'Γ', 'Λ', 'Ω', 'Π', 'Ψ', 'Σ', 'Θ', 'Ξ', Char.ofNat 27, 'Æ', 'æ', 'ß', 'É',
   ' ', '!', Char.ofNat 34, '#', '¤', '%', '&', Char.ofNat 39, '(', ')', '*', '+', ',', '-', '.', '/',
   '0', '1', '2', '3', '4', '5', '6', '7', '8', '9', ':', ';', '<', '=', '>', '?',
   '¡', 'A', 'B', 'C', 'D', 'E', 'F', 'G', 'H', 'I', 'J', 'K', 'L', 'M', 'N', 'O',
   'P', 'Q', 'R', 'S', 'T', 'U', 'V', 'W', 'X', 'Y', 'Z', 'Ä', 'Ö', 'Ñ', 'Ü', '§',
   '¿', 'a', 'b', 'c', 'd', 'e', 'f', 'g', 'h', 'i', 'j', 'k', 'l', 'm', 'n', 'o',
   'p', 'q', 'r', 's', 't', 'u', 'v', 'w', 'x', 'y', 'z', 'ä', 'ö', 'ñ', 'ü', 'à']

/-- Modelled from the spec: the extension half of the character table (indices
`0x80`–`0xFF`); entries defined by the standard extension mechanism, with
undefined slots holding the placeholder character. -/
def gsmExtChar (k : Nat) : Char :=
  if k = 0x0A then Char.ofNat 12
  else if k = 0x14 then '^'
  else if k = 0x28 then Char.ofNat 123
  else if k = 0x29 then Char.ofNat 125
  else if k = 0x2F then Char.ofNat 92
  else if k = 0x3C then '['
  else if k = 0x3D then '~'
  else if k = 0x3E then ']'
  else if k = 0x40 then '|'
  else if k = 0x65 then '€'
  else '?'

/-- Modelled from the spec: the full 128+128-entry character table. -/
def GSM_CHARACTER_TABLE : List Char :=
  gsmBase ++ (List.range 128).map gsmExtChar

/-- Table lookup used by `gsm_decode` (`src/common/smpp_common.py` lines
356-361): an index within the table's bounds maps to the table entry, any
other index maps to the replacement character `?`. -/
def gsmLookup (idx : Nat) : Char :=
  if idx < GSM_CHARACTER_TABLE.length then GSM_CHARACTER_TABLE.getD idx '?' else '?'

/-- Embedding of `gsm_decode` (`src/common/smpp_common.py` lines 332-363).
The Python loop reads one byte; on the escape byte `0x1B` with a following
byte present it combines both into index `nextByte + 0x80` and advances two,
otherwise the byte itself is the index and it advances one.  The Python
`isinstance(..., bytes)` guard (non-bytes input returned via `str`) is
outside the byte-string domain modelled here. -/
def gsm_decode : List Nat → List Char
  | [] => []
  | b :: rest =>
    if b = 0x1B then
      match rest with
      | [] => [gsmLookup b]
      | nb :: rest2 => gsmLookup (nb + 0x80) :: gsm_decode rest2
    else gsmLookup b :: gsm_decode rest

/-- First index of a character in a list (`list.index`-style search used to
invert the character table). -/
def indexOfChar (c : Char) : List Char → Option Nat
  | [] => none
  | x :: xs => if x = c then some 0 else (indexOfChar c xs).map (· + 1)

/-- Modelled from the spec: `smpplib.gsm.gsm_encode` is external.  Spec §4.2:
"Encoding is the table's inverse: map each input character to its 1-byte or
2-byte (escape + byte) code; characters with no mapping are a hard encode
error." -/
def gsm_encode_char (c : Char) : Option (List Nat) :=
  match indexOfChar c GSM_CHARACTER_TABLE with
  | none => none
  | some idx => if idx < 128 then some [idx] else some [0x1B, idx - 0x80]

/-- Modelled from the spec: whole-string GSM 7-bit encoding; fails (`none`)
when any character has no mapping. -/
def gsm_encode : List Char → Option (List Nat)
  | [] => some []
  | c :: cs =>
    match gsm_encode_char c, gsm_encode cs with
    | some bc, some bcs => some (bc ++ bcs)
    | _, _ => none

/-- The characters of the GSM default alphabet: characters present in the
table, the escape marker excluded (it is an encoding mechanism, not a text
character of the alphabet). -/
def inGsmAlphabet (c : Char) : Bool :=
  GSM_CHARACTER_TABLE.contains c && c != Char.ofNat 27

/-- The Unicode replacement character produced by Python byte decoding with
`errors='replace'`. -/
def replChar : Char := Char.ofNat 0xFFFD

/-- Model of Python `bytes.decode('ascii', errors='replace')`: bytes below
`0x80` map to their character, all other bytes to the replacement
character. -/
def asciiDecodeReplace (bs : List Nat) : List Char :=
  bs.map (fun b => if b < 0x80 then Char.ofNat b else replChar)

/-- Model of Python `bytes.decode('iso-8859-1')`: every byte maps directly to
the character of its value (total, never fails). -/
def latin1Decode (bs : List Nat) : List Char :=
  bs.map (fun b => Char.ofNat b)

/-- Model of Python `bytes.decode('utf-8', errors='replace')`: a standard
UTF-8 decoder in which every malformed sequence degrades to the replacement
character instead of failing.  The exact number of replacement characters
emitted for a truncated multi-byte sequence is simplified; no claim depends
on this branch's output. -/
def utf8DecodeReplace : List Nat → List Char
  | [] => []
  | b :: rest =>
    if b < 0x80 then Char.ofNat b :: utf8DecodeReplace rest
    else if 0xC2 ≤ b && b ≤ 0xDF then
      match rest with
      | b2 :: rest2 =>
        if 0x80 ≤ b2 && b2 ≤ 0xBF then
          Char.ofNat ((b - 0xC0) * 0x40 + (b2 - 0x80)) :: utf8DecodeReplace rest2
        else replChar :: utf8DecodeReplace (b2 :: rest2)
      | [] => [replChar]
    else if 0xE0 ≤ b && b ≤ 0xEF then
      match rest with
      | b2 :: b3 :: rest3 =>
        if (0x80 ≤ b2 && b2 ≤ 0xBF) && (0x80 ≤ b3 && b3 ≤ 0xBF) then
          (let cp := (b - 0xE0) * 0x1000 + (b2 - 0x80) * 0x40 + (b3 - 0x80)
           if 0x800 ≤ cp && !(0xD800 ≤ cp && cp ≤ 0xDFFF) then Char.ofNat cp else replChar) ::
            utf8DecodeReplace rest3
        else replChar :: utf8DecodeReplace (b2 :: b3 :: rest3)
      | [b2] => replChar :: utf8DecodeReplace [b2]
      | [] => [replChar]
    else if 0xF0 ≤ b && b ≤ 0xF4 then
      match rest with
      | b2 :: b3 :: b4 :: rest4 =>
        if (0x80 ≤ b2 && b2 ≤ 0xBF) && (0x80 ≤ b3 && b3 ≤ 0xBF) && (0x80 ≤ b4 && b4 ≤ 0xBF) then
          (let cp := (b - 0xF0) * 0x40000 + (b2 - 0x80) * 0x1000 + (b3 - 0x80) * 0x40 + (b4 - 0x80)
           if 0x10000 ≤ cp && cp ≤ 0x10FFFF then Char.ofNat cp else replChar) ::
            utf8DecodeReplace rest4
        else replChar :: utf8DecodeReplace (b2 :: b3 :: b4 :: rest4)
      | [b2, b3] => replChar :: utf8DecodeReplace [b2, b3]
      | [b2] => replChar :: utf8DecodeReplace [b2]
      | [] => [replChar]
    else replChar :: utf8DecodeReplace rest
termination_by bs => bs.length
decreasing_by all_goals simp [List.length] <;> omega

/-- Model of Python `bytes.decode('utf-16be', errors='replace')`: big-endian
16-bit code units, surrogate pairs combined, unpaired surrogates and an odd
trailing byte degrade to the replacement character.  No claim depends on this
branch's output. -/
def ucs2DecodeReplace : List Nat → List Char
  | [] => []
  | [_] => [replChar]
  | b1 :: b2 :: rest =>
    let u := b1 * 0x100 + b2
    if 0xD800 ≤ u && u ≤ 0xDBFF then
      match rest with
      | b3 :: b4 :: rest2 =>
        let u2 := b3 * 0x100 + b4
        if 0xDC00 ≤ u2 && u2 ≤ 0xDFFF then
          Char.ofNat (0x10000 + (u - 0xD800) * 0x400 + (u2 - 0xDC00)) :: ucs2DecodeReplace rest2
        else replChar :: ucs2DecodeReplace (b3 :: b4 :: rest2)
      | [b3] => replChar :: ucs2DecodeReplace [b3]
      | [] => [replChar]
    else if 0xDC00 ≤ u && u ≤ 0xDFFF then replChar :: ucs2DecodeReplace rest
    else Char.ofNat u :: ucs2DecodeReplace rest
termination_by bs => bs.length
decreasing_by all_goals simp [List.length] <;> omega

/-- Embedding of `decode_sms_message` (`src/common/smpp_common.py` lines
366-389).  Every branch decoder is total (the Python branches use
`errors='replace'` and `gsm_decode` never raises), so the surrounding Python
`try`/`except` fallback is dead code and the whole function is total: it
always returns a string.  Selector values other than `0x01`, `0x02`, `0x03`,
`0x08` — that is `0x00`, any value with high nibble `0xF`, and every other
unknown value — are routed to GSM 7-bit decoding.  The Python
`isinstance(..., bytes)` guard is outside the byte-string domain modelled
here. -/
def decode_sms_message (bs : List Nat) (data_coding : Nat) : List Char :=
  if data_coding = 0x00 then gsm_decode bs
  else if data_coding = 0x01 then asciiDecodeReplace bs
  else if data_coding = 0x02 then utf8DecodeReplace bs
  else if data_coding = 0x03 then latin1Decode bs
  else if data_coding = 0x08 then ucs2DecodeReplace bs
  else if data_coding &&& 0xF0 = 0xF0 then gsm_decode bs
  else gsm_decode bs

/-- Model of Python `str.encode('ascii', errors='replace')`: characters above
`0x7F` are replaced by `?` (byte `0x3F`). -/
def asciiEncodeReplace (cs : List Char) : List Nat :=
  cs.map (fun c => if c.toNat < 0x80 then c.toNat else 0x3F)

/-- Model of Python `str.encode('iso-8859-1', errors='replace')`: characters
above `0xFF` are replaced by `?`. -/
def latin1EncodeReplace (cs : List Char) : List Nat :=
  cs.map (fun c => if c.toNat < 0x100 then c.toNat else 0x3F)

/-- Model of Python `str.encode('utf-8')`: standard UTF-8 byte sequence of a
character (total over Lean `Char`, which excludes surrogates). -/
def utf8EncodeChar (c : Char) : List Nat :=
  let n := c.toNat
  if n < 0x80 then [n]
  else if n < 0x800 then [0xC0 + n / 0x40, 0x80 + n % 0x40]
  else if n < 0x10000 then [0xE0 + n / 0x1000, 0x80 + (n / 0x40) % 0x40, 0x80 + n % 0x40]
  else [0xF0 + n / 0x40000, 0x80 + (n / 0x1000) % 0x40, 0x80 + (n / 0x40) % 0x40, 0x80 + n % 0x40]

/-- Model of Python `str.encode('utf-8')` over a whole string. -/
def utf8Encode (cs : List Char) : List Nat :=
  (cs.map utf8EncodeChar).flatten

/-- Model of Python `str.encode('utf-16be')`: big-endian code units with
surrogate pairs for characters beyond the basic plane. -/
def ucs2EncodeChar (c : Char) : List Nat :=
  let n := c.toNat
  if n < 0x10000 then [n / 0x100, n % 0x100]
  else
    let m := n - 0x10000
    let hi := 0xD800 + m / 0x400
    let lo := 0xDC00 + m % 0x400
    [hi / 0x100, hi % 0x100, lo / 0x100, lo % 0x100]

/-- Model of Python `str.encode('utf-16be')` over a whole string. -/
def ucs2Encode (cs : List Char) : List Nat :=
  (cs.map ucs2EncodeChar).flatten

/-- Embedding of `encode_sms_message` (`src/common/smpp_common.py` lines
315-329).  The GSM branch delegates to the (spec-modelled) `gsm_encode`,
whose failure on an unmappable character is the `none` case; the other
branches are total. -/
def encode_sms_message (cs : List Char) (data_coding : Nat) : Option (List Nat) :=
  if data_coding = 0x00 || data_coding &&& 0xF0 = 0xF0 then gsm_encode cs
  else if data_coding = 0x01 then some (asciiEncodeReplace cs)
  else if data_coding = 0x02 then some (utf8Encode cs)
  else if data_coding = 0x03 then some (latin1EncodeReplace cs)
  else if data_coding = 0x08 then some (ucs2Encode cs)
  else gsm_encode cs

/-- The code-point ranges of the Unicode general category Nd (decimal digit),
Unicode 15.0 — the character set matched by Python's regex `\d` on `str`
patterns (no `re.ASCII` flag is passed in the source). -/
def ndRanges : List (Nat × Nat) :=
  [(0x30, 0x39), (0x660, 0x669), (0x6F0, 0x6F9), (0x7C0, 0x7C9), (0x966, 0x96F),
   (0x9E6, 0x9EF), (0xA66, 0xA6F), (0xAE6, 0xAEF), (0xB66, 0xB6F), (0xBE6, 0xBEF),
   (0xC66, 0xC6F), (0xCE6, 0xCEF), (0xD66, 0xD6F), (0xDE6, 0xDEF), (0xE50, 0xE59),
   (0xED0, 0xED9), (0xF20, 0xF29), (0x1040, 0x1049), (0x1090, 0x1099),
   (0x17E0, 0x17E9), (0x1810, 0x1819), (0x1946, 0x194F), (0x19D0, 0x19D9),
   (0x1A80, 0x1A89), (0x1A90, 0x1A99), (0x1B50, 0x1B59), (0x1BB0, 0x1BB9),
   (0x1C40, 0x1C49), (0x1C50, 0x1C59), (0xA620, 0xA629), (0xA8D0, 0xA8D9),
   (0xA900, 0xA909), (0xA9D0, 0xA9D9), (0xA9F0, 0xA9F9), (0xAA50, 0xAA59),
   (0xABF0, 0xABF9), (0xFF10, 0xFF19), (0x104A0, 0x104A9), (0x10D30, 0x10D39),
   (0x11066, 0x1106F), (0x110F0, 0x110F9), (0x11136, 0x1113F), (0x111D0, 0x111D9),
   (0x112F0, 0x112F9), (0x11450, 0x11459), (0x114D0, 0x114D9), (0x11650, 0x11659),
   (0x116C0, 0x116C9), (0x11730, 0x11739), (0x118E0, 0x118E9), (0x11950, 0x11959),
   (0x11C50, 0x11C59), (0x11D50, 0x11D59), (0x11DA0, 0x11DA9), (0x11F50, 0x11F59),
   (0x16A60, 0x16A69), (0x16AC0, 0x16AC9), (0x16B50, 0x16B59), (0x1D7CE, 0x1D7FF),
   (0x1E140, 0x1E149), (0x1E2F0, 0x1E2F9), (0x1E4F0, 0x1E4F9), (0x1E950, 0x1E959),
   (0x1FBF0, 0x1FBF9)]

/-- Model of Python regex `\d` on `str` patterns: any Unicode decimal digit
(general category Nd), not only ASCII `0`-`9`. -/
def isUnicodeDigit (c : Char) : Bool :=
  ndRanges.any (fun r => r.1 ≤ c.toNat && c.toNat ≤ r.2)

/-- The literal character class `[1-9]` (ASCII only). -/
def isAsciiOneToNine (c : Char) : Bool :=
  0x31 ≤ c.toNat && c.toNat ≤ 0x39

/-- Core of the regex `^[1-9]\d{6,14}$` on a character list: first character
a literal ASCII digit `1`-`9`, remaining 6 to 14 characters matched by `\d`,
which on Python `str` patterns means any Unicode decimal digit. -/
def e164Core : List Char → Bool
  | [] => false
  | c :: rest =>
    isAsciiOneToNine c && rest.all isUnicodeDigit &&
      decide (6 ≤ rest.length) && decide (rest.length ≤ 14)

/-- Embedding of `is_valid_e164_address` (`src/common/smpp_common.py` lines
173-179): empty is invalid, otherwise `re.match(r'^[1-9]\d{6,14}$', a)`.
Python's `$` anchor also matches just before a single trailing newline, so
the regex additionally accepts a well-formed number followed by one final
`'\n'`. -/
def is_valid_e164_address (a : List Char) : Bool :=
  !a.isEmpty && (e164Core a || (a.getLast? == some '\n' && e164Core a.dropLast))

/-- The character class `[a-zA-Z0-9åäöÅÄÖæøÆØ ._&-]` of
`is_valid_alphanumeric_address`. -/
def allowedSenderChar (c : Char) : Bool :=
  c.isAlpha || c.isDigit ||
    ['å', 'ä', 'ö', 'Å', 'Ä', 'Ö', 'æ', 'ø', 'Æ', 'Ø', ' ', '.', '_', '&', '-'].contains c

/-- The regex `^[a-zA-Z0-9åäöÅÄÖæøÆØ ._&-]+$`, with Python's `$`-anchor
tolerance for one final newline. -/
def alnumRegexMatch (a : List Char) : Bool :=
  (!a.isEmpty && a.all allowedSenderChar) ||
    (a.getLast? == some '\n' && !a.dropLast.isEmpty && a.dropLast.all allowedSenderChar)

/-- Whitespace stripped by Python `str.strip()`.  Restricted to the common
ASCII whitespace characters; this is exhaustive on the character set that can
reach the strip comparison in `is_valid_alphanumeric_address` (the allowed
class plus a final newline). -/
def isPySpace (c : Char) : Bool :=
  c = ' ' || c = Char.ofNat 9 || c = '\n' || c = '\r' || c = Char.ofNat 11 || c = Char.ofNat 12

/-- Model of Python `str.strip()`: drop whitespace from both ends. -/
def pyStrip (a : List Char) : List Char :=
  ((a.dropWhile isPySpace).reverse.dropWhile isPySpace).reverse

/-- Embedding of `is_valid_alphanumeric_address` (`src/common/smpp_common.py`
lines 182-203): non-empty, length at most 11, regex match on the allowed
class, and unchanged by `strip()` (no leading/trailing whitespace). -/
def is_valid_alphanumeric_address (a : List Char) : Bool :=
  !a.isEmpty && decide (a.length ≤ 11) && alnumRegexMatch a && pyStrip a == a

/-- Embedding of `validate_source_address` (`src/common/smpp_common.py` lines
206-223) as an acceptance predicate: `true` means the Python function returns
silently, `false` means it raises `ValueError`.  It tries E.164 first, then
alphanumeric. -/
def validate_source_address (a : List Char) : Bool :=
  !a.isEmpty && (is_valid_e164_address a || is_valid_alphanumeric_address a)

/-- A sent-message record, the per-sequence-number value stored in the
`sent_messages` dict of `src/tools/smpp_receiver.py` (lines 76-80):
`message_id` (normalized to string form) and `timestamp` are stored at send
time; `dlr_received` and `dlr_status` are the dynamically added keys, read
with defaults `False` and `None` (`.get`). -/
structure SentInfo where
  message_id : List Char
  timestamp : Nat
  dlr_received : Bool
  dlr_status : Option (List Char)
deriving Repr, DecidableEq

/-- A received-event record, the dict appended to `received_messages` by the
MO message handler (`src/tools/smpp_receiver.py` lines 157-165). -/
structure MoMessage where
  source : List Char
  destination : List Char
  text : List Char
  timestamp : Nat
  is_delivery_report : Bool
  sequence : Option Nat
deriving Repr, DecidableEq

/-- The three module-level registries of `src/tools/smpp_receiver.py` (lines
52-54): the sent-message registry (an insertion-ordered association list
mirroring the Python dict), the received-event log, and the delivery-report
log. -/
structure TrackerState where
  sent_messages : List (Nat × SentInfo)
  received_messages : List MoMessage
  delivery_reports_received : List MoMessage
deriving Repr, DecidableEq

/-- Substring test: Python's `sub in hay`. -/
def containsTok (sub hay : List Char) : Bool :=
  hay.tails.any (fun t => sub.isPrefixOf t)

/-- Model of `re.search` for the two regexes `id:(\d+)` and `stat:([A-Z]+)`:
scan left to right for the first position where the literal token is followed
by at least one character satisfying `p`; the captured group is the maximal
run of such characters there.  Returns `none` when no position matches. -/
def findTokenRun (tok : List Char) (p : Char → Bool) : List Char → Option (List Char)
  | [] => none
  | c :: rest =>
    if tok.isPrefixOf (c :: rest) && !(((c :: rest).drop tok.length).takeWhile p).isEmpty then
      some (((c :: rest).drop tok.length).takeWhile p)
    else findTokenRun tok p rest

/-- The token `b'id:` tested by `message_text.startswith("b'id:")` in the
delivery-report classification (`src/tools/smpp_receiver.py` line 154). -/
def bQuoteIdTok : List Char := ['b', Char.ofNat 39, 'i', 'd', ':']

/-- The delivery-report classification computed once at ingestion
(`src/tools/smpp_receiver.py` line 154):
`('id:' in text and 'stat:' in text) or text.startswith("b'id:")`. -/
def classify_delivery_report (text : List Char) : Bool :=
  (containsTok ("id:".toList) text && containsTok ("stat:".toList) text) ||
    bQuoteIdTok.isPrefixOf text

/-- The failure statuses of the early-termination check
(`src/tools/smpp_receiver.py` line 280). -/
def failureStatuses : List (List Char) :=
  ["UNDELIV".toList, "REJECTD".toList, "EXPIRED".toList, "UNKNOWN".toList]

/-- `sent_info.get('dlr_status') in ['UNDELIV', 'REJECTD', 'EXPIRED',
'UNKNOWN']`: a missing status (`none`) is not in the list. -/
def dlrStatusFailed (o : Option (List Char)) : Bool :=
  match o with
  | some st => decide (st ∈ failureStatuses)
  | none => false

/-- The mutation applied to a correlated sent record
(`src/tools/smpp_receiver.py` lines 253-258): set `dlr_received`, and store
the extracted status only when the regex `stat:([A-Z]+)` matches — otherwise
`dlr_status` is left untouched. -/
def markDlr (info : SentInfo) (text : List Char) : SentInfo :=
  { info with
    dlr_received := true,
    dlr_status :=
      match findTokenRun ("stat:".toList) Char.isUpper text with
      | some st => some st
      | none => info.dlr_status }

/-- The correlation loop of `check_message_correlation`
(`src/tools/smpp_receiver.py` lines 244-260): walk the sent registry in
insertion order; at the first record whose message id equals the extracted
id, mark it and return `True` immediately (later records are not visited). -/
def correlateSent (d text : List Char) : List (Nat × SentInfo) → List (Nat × SentInfo) × Bool
  | [] => ([], false)
  | (seq, info) :: rest =>
    if info.message_id = d then ((seq, markDlr info text) :: rest, true)
    else
      let r := correlateSent d text rest
      ((seq, info) :: r.1, r.2)

/-- Embedding of `check_message_correlation` (`src/tools/smpp_receiver.py`
lines 233-262): only delivery-report events are correlated, and only when the
regex `id:(\d+)` extracts a message id from the text. -/
def check_message_correlation (s : TrackerState) (m : MoMessage) : TrackerState × Bool :=
  if m.is_delivery_report then
    match findTokenRun ("id:".toList) Char.isDigit m.text with
    | some d =>
      let r := correlateSent d m.text s.sent_messages
      ({ s with sent_messages := r.1 }, r.2)
    | none => (s, false)
  else (s, false)

/-- Embedding of `has_received_all_confirmations`
(`src/tools/smpp_receiver.py` lines 265-283). -/
def has_received_all_confirmations (s : TrackerState) : Bool :=
  if s.sent_messages.isEmpty then false
  else
    let has_mo := s.received_messages.any (fun m => !m.is_delivery_report)
    let all_dlrs := s.sent_messages.all (fun p => p.2.dlr_received)
    let has_failed := s.sent_messages.any (fun p =>
      p.2.dlr_received && dlrStatusFailed p.2.dlr_status)
    (has_mo && all_dlrs) || has_failed

/-- The tracker-relevant effect of one `deliver_sm` event in the MO message
handler (`src/tools/smpp_receiver.py` lines 111-210): classify the decoded
text once, append the event to the received log (and to the delivery-report
log when classified as one), then run correlation, which mutates only the
sent registry. -/
def ingest_mo_event (s : TrackerState) (source destination text : List Char)
    (seqn : Option Nat) (ts : Nat) : TrackerState :=
  let isDlr := classify_delivery_report text
  let m : MoMessage := ⟨source, destination, text, ts, isDlr, seqn⟩
  let s1 : TrackerState :=
    { s with
      received_messages := s.received_messages ++ [m],
      delivery_reports_received :=
        if isDlr then s.delivery_reports_received ++ [m] else s.delivery_reports_received }
  (check_message_correlation s1 m).1

/-- Python dict assignment `sent_messages[seq] = {...}`: replace in place if
the key exists, append otherwise. -/
def setSent : List (Nat × SentInfo) → Nat → SentInfo → List (Nat × SentInfo)
  | [], k, v => [(k, v)]
  | (k0, v0) :: rest, k, v =>
    if k0 = k then (k, v) :: rest else (k0, v0) :: setSent rest k v

/-- Embedding of `message_sent_handler` (`src/tools/smpp_receiver.py` lines
68-80): register a sent message under its sequence number with its
(string-normalized) message id and timestamp. -/
def message_sent_handler (s : TrackerState) (seq : Nat) (mid : List Char) (ts : Nat) :
    TrackerState :=
  { s with sent_messages := setSent s.sent_messages seq ⟨mid, ts, false, none⟩ }

/-- A freshly registered sent record: `dlr_received` and `dlr_status` unset. -/
def mkSentInfo (mid : List Char) : SentInfo := ⟨mid, 0, false, none⟩

/-- A tracker state with an empty sent registry but one logged non-DLR event. -/
def emptyRegistryState : TrackerState :=
  ⟨[], [⟨"a".toList, "b".toList, "hello".toList, 0, false, none⟩], []⟩

/-- A tracker state with two sent records sharing the protocol message id
`"123"`. -/
def dupIdState : TrackerState :=
  ⟨[(1, mkSentInfo "123".toList), (2, mkSentInfo "123".toList)], [], []⟩

/-- A delivery-report text carrying `id:123` and `stat:DELIVRD`. -/
def dlrTextDelivrd : List Char := "id:123 stat:DELIVRD".toList

/-- The end-to-end scenario of the correlation claim: one sent record with
message id `"123"`, a non-DLR event ingested first, then the matching
delivery report. -/
def scenarioAfterState : TrackerState :=
  ingest_mo_event
    (ingest_mo_event ⟨[(1, mkSentInfo "123".toList)], [], []⟩
      "s".toList "d".toList "hello".toList none 0)
    "s".toList "d".toList dlrTextDelivrd none 1

/-- A delivery-report text whose status field is lower-case, so the
`stat:([A-Z]+)` regex does not match. -/
def dlrTextLowercase : List Char := "id:123 stat:delivrd".toList

/-- State after ingesting a delivery report whose status regex finds no
match. -/
def lowercaseAfterState : TrackerState :=
  ingest_mo_event ⟨[(1, mkSentInfo "123".toList)], [], []⟩
    "s".toList "d".toList dlrTextLowercase none 0

/-- A text starting with the `b'id:` marker but containing no status token. -/
def bQuoteText : List Char := ['b', Char.ofNat 39, 'i', 'd', ':', '7']

/-- An E.164-shaped number followed by one newline, which Python's `$` anchor
still accepts. -/
def e164NewlineAddr : List Char := "1234567".toList ++ ['\n']

/-- A 7-digit string: valid E.164 and simultaneously within the alphanumeric
rules. -/
def sevenDigitAddr : List Char := "1234567".toList

/-- Declarative reading of "the regex token matches at position `i`": the
literal token is a prefix of the text dropped at `i`, and at least one
character satisfying `p` follows it. -/
def tokenMatchAt (tok : List Char) (p : Char → Bool) (text : List Char) (i : Nat) : Prop :=
  tok.isPrefixOf (text.drop i) = true ∧
    ∃ c, (text.drop (i + tok.length)).head? = some c ∧ p c = true

/-- The captured group at position `i`: the maximal run of characters
satisfying `p` after the token. -/
def runAt (tok : List Char) (p : Char → Bool) (text : List Char) (i : Nat) : List Char :=
  ((text.drop (i + tok.length)).takeWhile p)

/-- The E.164 regex condition in declarative form: 7-15 characters, the
first a literal ASCII digit 1-9, every character a Unicode decimal digit
(Python `\d`; no `+` is implied).  This is what
`re.match(r'^[1-9]\d{6,14}$', ...)` actually accepts at a match starting the
string — broader than the specification's "digits only", which reads as
ASCII digits. -/
def specE164 (a : List Char) : Prop :=
  (∀ c ∈ a, isUnicodeDigit c = true) ∧ 7 ≤ a.length ∧ a.length ≤ 15 ∧
    a.head?.any isAsciiOneToNine = true

/-- A 7-character address accepted by the program whose tail is six
Arabic-Indic digits (U+0666): Python `\d` matches them, ASCII "digits only"
does not. -/
def arabicDigitAddr : List Char :=
  '1' :: List.replicate 6 (Char.ofNat 0x666)

/-- The alphanumeric sender-id condition exactly as the specification words
it: non-empty, length at most 11, every character in the allowed class, and
no leading or trailing space. -/
def specAlnum (a : List Char) : Prop :=
  a ≠ [] ∧ a.length ≤ 11 ∧ (∀ c ∈ a, allowedSenderChar c = true) ∧
    a.head? ≠ some ' ' ∧ a.getLast? ≠ some ' '

set_option maxRecDepth 20000

theorem check_message_correlation_received (s : TrackerState) (m : MoMessage) :
    (check_message_correlation s m).1.received_messages = s.received_messages := by
  unfold check_message_correlation
  by_cases h : m.is_delivery_report = true
  · simp only [h, if_true]
    cases hf : findTokenRun ("id:".toList) Char.isDigit m.text <;> simp [hf]
  · simp [h]

theorem check_message_correlation_dlrs (s : TrackerState) (m : MoMessage) :
    (check_message_correlation s m).1.delivery_reports_received =
      s.delivery_reports_received := by
  unfold check_message_correlation
  by_cases h : m.is_delivery_report = true
  · simp only [h, if_true]
    cases hf : findTokenRun ("id:".toList) Char.isDigit m.text <;> simp [hf]
  · simp [h]

/-- C10: whenever the sent-message registry is empty,
`has_received_all_confirmations` returns `false`, regardless of the received
log (and of the delivery-report log) — the completion predicate can only
become true after at least one send has been registered. -/
theorem has_received_all_confirmations_empty_registry :
    ∀ recvd dlrs : List MoMessage,
      has_received_all_confirmations ⟨[], recvd, dlrs⟩ = false := by
  intro recvd dlrs
  rfl

/-- C3: `gsm_decode` works byte-by-byte: the escape byte `0x1B` with a
following byte consumes two bytes and looks up index `nextByte + 0x80`; any
other byte — including a lone trailing `0x1B`, which is looked up in the base
table — is its own index and consumes one byte; an index within the table's
bounds decodes to that table entry and any index outside decodes to `?`; in
particular `0x1B 0x65` decodes to the single character at extended index
`0x65 + 0x80`. -/
theorem gsm_decode_byte_by_byte :
    GSM_CHARACTER_TABLE.length = 256
    ∧ gsm_decode [] = []
    ∧ (∀ nb rest, gsm_decode (0x1B :: nb :: rest) = gsmLookup (nb + 0x80) :: gsm_decode rest)
    ∧ gsm_decode [0x1B] = [gsmLookup 0x1B]
    ∧ (∀ b rest, b ≠ 0x1B → gsm_decode (b :: rest) = gsmLookup b :: gsm_decode rest)
    ∧ (∀ idx, idx < 256 → gsmLookup idx = GSM_CHARACTER_TABLE.getD idx '?')
    ∧ (∀ idx, 256 ≤ idx → gsmLookup idx = '?')
    ∧ gsm_decode [0x1B, 0x65] = [GSM_CHARACTER_TABLE.getD (0x65 + 0x80) '?'] := by
  refine ⟨by rfl, rfl, fun nb rest => rfl, rfl, ?_, ?_, ?_, by decide⟩
  · intro b rest hb
    rw [gsm_decode.eq_def]
    simp only [if_neg hb]
  · intro idx h
    have hlen : GSM_CHARACTER_TABLE.length = 256 := by rfl
    simp [gsmLookup, hlen, h]
  · intro idx h
    have hlen : GSM_CHARACTER_TABLE.length = 256 := by rfl
    simp [gsmLookup, hlen]
    omega

theorem gsm_decode_byte_by_byte_witness : gsm_decode [0x41] = ['A'] := by
  have h := gsm_decode_byte_by_byte.2.2.2.2.1 0x41 [] (by decide)
  exact h.trans (by decide)

/-- C4: `decode_sms_message` is a total function — every selector routes the
bytes to one of the five total branch decoders, so it never fails and always
returns a string; every selector other than `0x01`, `0x02`, `0x03`, `0x08`
(that is `0x00`, values with high nibble `0xF`, and all unknown values) is
decoded with GSM 7-bit decoding, whose unmapped indices yield `?` rather
than an error. -/
theorem decode_sms_message_total_dispatch :
    ∀ (bs : List Nat) (dc : Nat),
      decode_sms_message bs dc =
        if dc = 0x01 then asciiDecodeReplace bs
        else if dc = 0x02 then utf8DecodeReplace bs
        else if dc = 0x03 then latin1Decode bs
        else if dc = 0x08 then ucs2DecodeReplace bs
        else gsm_decode bs := by
  intro bs dc
  unfold decode_sms_message
  split_ifs <;> first | rfl | omega

/-- C8 counterexample: the text `b'id:7` is classified as a delivery report
by the ingestion classification although it does not contain the status
marker `stat:` — the classification is not equivalent to "contains both
markers" because of the extra `startswith("b'id:")` disjunct. -/
theorem classify_delivery_report_not_iff_markers :
    classify_delivery_report bQuoteText = true ∧
      containsTok ("stat:".toList) bQuoteText = false := by
  decide

/-- C8 amended: each inbound event is classified once at ingestion, with
`is_delivery_report` = (text contains both `id:` and `stat:`) OR (text starts
with `b'id:`); the event is appended to the received log with that
classification, and ingestion never modifies previously logged events (the
old log is a prefix of the new one), so a stored classification never
changes. -/
theorem ingest_classification_immutable :
    ∀ (s : TrackerState) (source destination text : List Char)
      (seqn : Option Nat) (ts : Nat),
      (ingest_mo_event s source destination text seqn ts).received_messages =
        s.received_messages ++
          [⟨source, destination, text, ts, classify_delivery_report text, seqn⟩]
      ∧ classify_delivery_report text =
          ((containsTok ("id:".toList) text && containsTok ("stat:".toList) text) ||
            bQuoteIdTok.isPrefixOf text) := by
  intro s source destination text seqn ts
  refine ⟨?_, rfl⟩
  unfold ingest_mo_event
  simp only [check_message_correlation_received]

theorem dlrStatusFailed_iff (o : Option (List Char)) :
    dlrStatusFailed o = true ↔ ∃ st, o = some st ∧ st ∈ failureStatuses := by
  cases o <;> simp [dlrStatusFailed]

/-- C1 counterexample: in a state with an empty sent registry and one logged
non-delivery-report event, both conditions of the claim's first branch hold
(a non-DLR event is logged, and every sent record — vacuously — has received
its delivery report), yet `has_received_all_confirmations` returns `false`
because of the empty-registry guard.  The claimed "exactly when" equivalence
therefore fails at this state. -/
theorem has_received_all_confirmations_empty_vacuous :
    has_received_all_confirmations emptyRegistryState = false ∧
      (∃ m ∈ emptyRegistryState.received_messages, m.is_delivery_report = false) ∧
      (∀ p ∈ emptyRegistryState.sent_messages, p.2.dlr_received = true) := by
  decide

/-- C1 amended: `has_received_all_confirmations` returns true exactly when
the sent registry is non-empty AND ((at least one logged received event is a
non-delivery-report message and every sent record has received its delivery
report) OR (some sent record has received its delivery report with a status
among UNDELIV, REJECTD, EXPIRED, UNKNOWN)). -/
theorem has_received_all_confirmations_characterization :
    ∀ s : TrackerState,
      has_received_all_confirmations s = true ↔
        (s.sent_messages ≠ [] ∧
          (((∃ m ∈ s.received_messages, m.is_delivery_report = false) ∧
             ∀ p ∈ s.sent_messages, p.2.dlr_received = true) ∨
           (∃ p ∈ s.sent_messages, p.2.dlr_received = true ∧
             ∃ st, p.2.dlr_status = some st ∧ st ∈ failureStatuses))) := by
  intro s
  unfold has_received_all_confirmations
  by_cases hs : s.sent_messages.isEmpty
  · simp [hs, List.isEmpty_iff.mp hs]
  · have hne : s.sent_messages ≠ [] := by
      intro h
      exact hs (by simp [h])
    rw [if_neg hs]
    simp [List.any_eq_true, List.all_eq_true, dlrStatusFailed_iff, hne,
      Bool.not_eq_true', Bool.and_eq_true]

/-- C7 counterexample: the accepted address `"1234567"` satisfies the E.164
predicate and the alphanumeric predicate simultaneously, so "exactly one of
the two kinds holds ... never both" fails. -/
theorem both_address_kinds_hold :
    validate_source_address sevenDigitAddr = true ∧
      is_valid_e164_address sevenDigitAddr = true ∧
      is_valid_alphanumeric_address sevenDigitAddr = true := by
  decide

/-- C7 amended: every address accepted by validation satisfies at least one
of the two predicates, but not always exactly one — a 7-digit string like
`"1234567"` satisfies both (validation resolves the overlap by trying E.164
first). -/
theorem accepted_address_has_a_kind :
    (∀ a, validate_source_address a = true →
      is_valid_e164_address a = true ∨ is_valid_alphanumeric_address a = true) ∧
      is_valid_e164_address sevenDigitAddr = true ∧
      is_valid_alphanumeric_address sevenDigitAddr = true := by
  refine ⟨?_, by decide, by decide⟩
  intro a h
  unfold validate_source_address at h
  simp only [Bool.and_eq_true, Bool.or_eq_true] at h
  exact h.2

theorem accepted_address_has_a_kind_witness :
    is_valid_e164_address ("447700900000".toList) = true ∨
      is_valid_alphanumeric_address ("447700900000".toList) = true :=
  accepted_address_has_a_kind.1 _ (by decide)

/-- C2 counterexample: two sent records both carry protocol message id
`"123"`; a delivery report with `id:123` and `stat:DELIVRD` is ingested, its
extracted id equals both records' ids, yet only the first record is marked —
the second matching record keeps `dlr_received = false`, refuting "for every
sent record ... correlation marks that record". -/
theorem correlation_skips_second_matching_record :
    findTokenRun ("id:".toList) Char.isDigit dlrTextDelivrd = some ("123".toList) ∧
      (ingest_mo_event dupIdState "s".toList "d".toList dlrTextDelivrd none 0).sent_messages =
        [(1, ⟨"123".toList, 0, true, some ("DELIVRD".toList)⟩),
         (2, ⟨"123".toList, 0, false, none⟩)] := by
  decide

/-- C2 amended: correlation marks the FIRST record (in registration order)
whose protocol message id equals the extracted id — it receives
`dlr_received = true` and the extracted status, while every earlier
(non-matching) and later record is left unchanged; in particular, for a
single sent record with sequenceNumber 1 and protocolMessageId `"123"`, a
delivery report containing `id:123` and `stat:DELIVRD` transitions it to the
delivered state with status `DELIVRD`, and `has_received_all_confirmations`
becomes true once a non-DLR event also exists in the log. -/
theorem correlateSent_first_match :
    (∀ (pre post : List (Nat × SentInfo)) (seq : Nat) (info : SentInfo) (d text : List Char),
      (∀ q ∈ pre, q.2.message_id ≠ d) → info.message_id = d →
      correlateSent d text (pre ++ (seq, info) :: post) =
        (pre ++ (seq, markDlr info text) :: post, true)) ∧
    scenarioAfterState.sent_messages =
      [(1, ⟨"123".toList, 0, true, some ("DELIVRD".toList)⟩)] ∧
    has_received_all_confirmations scenarioAfterState = true := by
  refine ⟨?_, by decide, by decide⟩
  intro pre post seq info d text
  induction pre with
  | nil =>
    intro _ hinfo
    simp only [List.nil_append]
    unfold correlateSent
    rw [if_pos hinfo]
  | cons q pre ih =>
    intro hpre hinfo
    obtain ⟨qk, qv⟩ := q
    have h1 : qv.message_id ≠ d := hpre (qk, qv) (by simp)
    have h2 := ih (fun q hq => hpre q (List.mem_cons_of_mem _ hq)) hinfo
    simp only [List.cons_append]
    unfold correlateSent
    rw [if_neg h1]
    simp [h2]

theorem correlateSent_first_match_witness :
    correlateSent ("123".toList) ("stat:REJECTD".toList) [(1, mkSentInfo ("123".toList))] =
      ([(1, ⟨"123".toList, 0, true, some ("REJECTD".toList)⟩)], true) := by
  have h := correlateSent_first_match.1 [] [] 1 (mkSentInfo ("123".toList)) ("123".toList)
    ("stat:REJECTD".toList) (by simp) rfl
  simp only [List.nil_append] at h
  exact h.trans (by decide)

theorem takeWhileP_ne_nil_iff (p : Char → Bool) (l : List Char) :
    (l.takeWhile p).isEmpty = false ↔ ∃ c, l.head? = some c ∧ p c = true := by
  cases l with
  | nil => simp [List.takeWhile]
  | cons x xs =>
    by_cases hx : p x = true <;> simp [List.takeWhile_cons, hx]

theorem tokenMatchAt_zero (tok : List Char) (p : Char → Bool) (text : List Char) :
    tokenMatchAt tok p text 0 ↔
      (tok.isPrefixOf text = true ∧
        ((text.drop tok.length).takeWhile p).isEmpty = false) := by
  constructor
  · rintro ⟨h1, c, h2, h3⟩
    refine ⟨by simpa using h1, ?_⟩
    rw [takeWhileP_ne_nil_iff]
    exact ⟨c, by simpa using h2, h3⟩
  · rintro ⟨h1, h2⟩
    rw [takeWhileP_ne_nil_iff] at h2
    obtain ⟨c, hc1, hc2⟩ := h2
    exact ⟨by simpa using h1, c, by simpa using hc1, hc2⟩

theorem tokenMatchAt_succ (tok : List Char) (p : Char → Bool) (c : Char) (rest : List Char)
    (i : Nat) :
    tokenMatchAt tok p (c :: rest) (i + 1) ↔ tokenMatchAt tok p rest i := by
  have h : i + 1 + tok.length = (i + tok.length) + 1 := by omega
  simp [tokenMatchAt, h, List.drop_succ_cons]

theorem runAt_succ (tok : List Char) (p : Char → Bool) (c : Char) (rest : List Char) (i : Nat) :
    runAt tok p (c :: rest) (i + 1) = runAt tok p rest i := by
  have h : i + 1 + tok.length = (i + tok.length) + 1 := by omega
  simp [runAt, h, List.drop_succ_cons]

theorem findTokenRun_first_match (tok : List Char) (p : Char → Bool) :
    ∀ (text st : List Char), findTokenRun tok p text = some st →
      ∃ i, tokenMatchAt tok p text i ∧ (∀ j, j < i → ¬ tokenMatchAt tok p text j) ∧
        st = runAt tok p text i := by
  intro text
  induction text with
  | nil => intro st h; simp [findTokenRun] at h
  | cons c rest ih =>
    intro st h
    rw [findTokenRun.eq_def] at h
    dsimp only at h
    by_cases hc :
        (tok.isPrefixOf (c :: rest) && !(((c :: rest).drop tok.length).takeWhile p).isEmpty) = true
    · rw [if_pos hc] at h
      simp only [Bool.and_eq_true, Bool.not_eq_true'] at hc
      refine ⟨0, ?_, by omega, ?_⟩
      · exact (tokenMatchAt_zero tok p (c :: rest)).mpr ⟨hc.1, hc.2⟩
      · have hst : st = ((c :: rest).drop tok.length).takeWhile p := by
          exact (Option.some_inj.mp h).symm
        simpa [runAt, Nat.zero_add] using hst
    · rw [if_neg hc] at h
      obtain ⟨i, hm, hmin, hst⟩ := ih st h
      refine ⟨i + 1, (tokenMatchAt_succ tok p c rest i).mpr hm, ?_, ?_⟩
      · intro j hj
        match j with
        | 0 =>
          intro h0
          have := (tokenMatchAt_zero tok p (c :: rest)).mp h0
          exact hc (by simp [this.1, this.2])
        | j + 1 =>
          intro hmj
          exact hmin j (by omega) ((tokenMatchAt_succ tok p c rest j).mp hmj)
      · rw [runAt_succ]
        exact hst

/-- C9 counterexample: ingesting a delivery report whose text is
`id:123 stat:delivrd` (lower-case status, so `stat:([A-Z]+)` has no match)
marks the matching record's `dlr_received` but stores NO status
(`dlr_status` stays `none`), and the completion predicate stays `false` —
the claim instead demands a stored "unknown"/UNKNOWN status that counts in
the failure branch, which would make the predicate `true`. -/
theorem missing_status_is_dropped :
    findTokenRun ("stat:".toList) Char.isUpper dlrTextLowercase = none ∧
      lowercaseAfterState.sent_messages = [(1, ⟨"123".toList, 0, true, none⟩)] ∧
      has_received_all_confirmations lowercaseAfterState = false := by
  decide

/-- C9 amended: the extracted status is the first match of `stat:` followed
by a maximal run of uppercase letters (leftmost match, maximal capture);
when no such match exists, correlation still marks the record as having
received its delivery report but stores no status (`dlr_status` is left
unchanged, i.e. `none` for a fresh record), and a record without a stored
status never participates in the failure branch of the completion
predicate. -/
theorem status_extraction_first_match :
    (∀ text st : List Char,
      findTokenRun ("stat:".toList) Char.isUpper text = some st →
        ∃ i, tokenMatchAt ("stat:".toList) Char.isUpper text i ∧
          (∀ j, j < i → ¬ tokenMatchAt ("stat:".toList) Char.isUpper text j) ∧
          st = runAt ("stat:".toList) Char.isUpper text i) ∧
    (∀ (info : SentInfo) (text : List Char),
      findTokenRun ("stat:".toList) Char.isUpper text = none →
        markDlr info text = ⟨info.message_id, info.timestamp, true, info.dlr_status⟩) ∧
    (∀ s : TrackerState, (∀ p ∈ s.sent_messages, p.2.dlr_status = none) →
      (has_received_all_confirmations s = true ↔
        (s.sent_messages ≠ [] ∧
          (∃ m ∈ s.received_messages, m.is_delivery_report = false) ∧
          ∀ p ∈ s.sent_messages, p.2.dlr_received = true))) := by
  refine ⟨findTokenRun_first_match _ _, ?_, ?_⟩
  · intro info text hnone
    unfold markDlr
    rw [hnone]
  · intro s hnone
    unfold has_received_all_confirmations
    by_cases hs : s.sent_messages.isEmpty
    · simp [hs, List.isEmpty_iff.mp hs]
    · have hne : s.sent_messages ≠ [] := fun h => hs (by simp [h])
      rw [if_neg hs]
      have hfail :
          (s.sent_messages.any fun p => p.2.dlr_received && dlrStatusFailed p.2.dlr_status) =
            false := by
        simp only [List.any_eq_false]
        intro p hp
        rw [hnone p hp]
        simp [dlrStatusFailed]
      simp [hfail, hne, List.any_eq_true, List.all_eq_true, Bool.not_eq_true']

theorem status_extraction_first_match_witness :
    markDlr (mkSentInfo ("9".toList)) ("no status token".toList) =
      ⟨"9".toList, 0, true, none⟩ := by
  have h := status_extraction_first_match.2.1 (mkSentInfo ("9".toList))
    ("no status token".toList) (by decide)
  exact h.trans (by decide)

theorem indexOfChar_lt_length (c : Char) :
    ∀ (l : List Char) (i : Nat), indexOfChar c l = some i → i < l.length := by
  intro l
  induction l with
  | nil => intro i h; simp [indexOfChar] at h
  | cons x xs ih =>
    intro i h
    rw [indexOfChar] at h
    by_cases hx : x = c
    · rw [if_pos hx] at h
      have : i = 0 := (Option.some_inj.mp h).symm
      simp [this]
    · rw [if_neg hx] at h
      cases hrec : indexOfChar c xs with
      | none => rw [hrec] at h; simp at h
      | some j =>
        rw [hrec] at h
        simp at h
        have := ih j hrec
        simp [← h]
        omega

theorem indexOfChar_getD (c : Char) :
    ∀ (l : List Char) (i : Nat) (d : Char), indexOfChar c l = some i → l.getD i d = c := by
  intro l
  induction l with
  | nil => intro i d h; simp [indexOfChar] at h
  | cons x xs ih =>
    intro i d h
    rw [indexOfChar] at h
    by_cases hx : x = c
    · rw [if_pos hx] at h
      have : i = 0 := (Option.some_inj.mp h).symm
      simp [this, hx]
    · rw [if_neg hx] at h
      cases hrec : indexOfChar c xs with
      | none => rw [hrec] at h; simp at h
      | some j =>
        rw [hrec] at h
        simp at h
        subst h
        simpa using ih j d hrec

theorem indexOfChar_isSome_of_mem (c : Char) :
    ∀ l : List Char, c ∈ l → (indexOfChar c l).isSome = true := by
  intro l
  induction l with
  | nil => intro h; simp at h
  | cons x xs ih =>
    intro h
    rw [indexOfChar]
    by_cases hx : x = c
    · simp [hx]
    · have : c ∈ xs := by
        rcases List.mem_cons.mp h with h1 | h1
        · exact absurd h1.symm hx
        · exact h1
      rw [if_neg hx]
      cases hrec : indexOfChar c xs with
      | none =>
        have hsome := ih this
        rw [hrec] at hsome
        simp at hsome
      | some j => simp [hrec]

theorem gsm_encode_char_decode (c : Char) (h : inGsmAlphabet c = true) :
    ∃ bc, gsm_encode_char c = some bc ∧
      ∀ rest, gsm_decode (bc ++ rest) = c :: gsm_decode rest := by
  have hlen : GSM_CHARACTER_TABLE.length = 256 := by rfl
  unfold inGsmAlphabet at h
  simp only [Bool.and_eq_true, bne_iff_ne] at h
  obtain ⟨hmem, hne⟩ := h
  have hmem' : c ∈ GSM_CHARACTER_TABLE := by
    simpa using hmem
  obtain ⟨i, hidx⟩ := Option.isSome_iff_exists.mp
    (indexOfChar_isSome_of_mem c GSM_CHARACTER_TABLE hmem')
  have hilt : i < 256 := hlen ▸ indexOfChar_lt_length c GSM_CHARACTER_TABLE i hidx
  have hget : GSM_CHARACTER_TABLE.getD i '?' = c :=
    indexOfChar_getD c GSM_CHARACTER_TABLE i '?' hidx
  have hlook : gsmLookup i = c := by
    unfold gsmLookup
    rw [hlen, if_pos hilt, hget]
  have hi27 : i ≠ 27 := by
    intro hi
    subst hi
    have h27 : GSM_CHARACTER_TABLE.getD 27 '?' = Char.ofNat 27 := by decide
    exact hne (by rw [← hget, h27])
  by_cases hsmall : i < 128
  · refine ⟨[i], ?_, ?_⟩
    · simp [gsm_encode_char, hidx, hsmall]
    · intro rest
      rw [List.cons_append, List.nil_append, gsm_decode.eq_def]
      dsimp only
      rw [if_neg hi27, hlook]
  · refine ⟨[0x1B, i - 0x80], ?_, ?_⟩
    · simp [gsm_encode_char, hidx, hsmall]
    · intro rest
      have hsub : i - 0x80 + 0x80 = i := by omega
      calc gsm_decode ([0x1B, i - 0x80] ++ rest)
          = gsmLookup (i - 0x80 + 0x80) :: gsm_decode rest := rfl
        _ = c :: gsm_decode rest := by rw [hsub, hlook]

theorem gsm_roundtrip :
    ∀ (cs : List Char) (bs : List Nat),
      (∀ c ∈ cs, inGsmAlphabet c = true) → gsm_encode cs = some bs →
      gsm_decode bs = cs := by
  intro cs
  induction cs with
  | nil =>
    intro bs _ h
    rw [gsm_encode] at h
    have : bs = [] := (Option.some_inj.mp h).symm
    simp [this, gsm_decode]
  | cons c cs ih =>
    intro bs hall h
    obtain ⟨bc, hbc, hdec⟩ := gsm_encode_char_decode c (hall c (by simp))
    rw [gsm_encode.eq_def] at h
    dsimp only at h
    rw [hbc] at h
    cases henc : gsm_encode cs with
    | none => rw [henc] at h; simp at h
    | some bcs =>
      rw [henc] at h
      dsimp only at h
      have hbs : bs = bc ++ bcs := (Option.some_inj.mp h).symm
      subst hbs
      rw [hdec bcs, ih bcs (fun x hx => hall x (List.mem_cons_of_mem _ hx)) henc]

/-- C5: GSM 7-bit round trip through the dispatcher: for every text whose
characters all lie in the GSM default alphabet, decoding the GSM 7-bit
encoding of the text yields the original text,
`decode_sms_message (encode_sms_message text 0x00) 0x00 = text`. -/
theorem gsm_roundtrip_via_dispatcher :
    ∀ (cs : List Char) (bs : List Nat),
      (∀ c ∈ cs, inGsmAlphabet c = true) →
      encode_sms_message cs 0x00 = some bs →
      decode_sms_message bs 0x00 = cs := by
  intro cs bs hall henc
  have h1 : encode_sms_message cs 0x00 = gsm_encode cs := rfl
  have h2 : decode_sms_message bs 0x00 = gsm_decode bs := rfl
  rw [h2]
  exact gsm_roundtrip cs bs hall (h1 ▸ henc)

theorem gsm_roundtrip_via_dispatcher_witness :
    (∀ c ∈ ("Hej".toList), inGsmAlphabet c = true) ∧
      decode_sms_message [0x48, 0x65, 0x6A] 0x00 = "Hej".toList := by
  refine ⟨by decide, ?_⟩
  exact gsm_roundtrip_via_dispatcher ("Hej".toList) [0x48, 0x65, 0x6A] (by decide) (by decide)

theorem mem_of_headq (l : List Char) (c : Char) (h : l.head? = some c) : c ∈ l := by
  cases l with
  | nil => simp at h
  | cons x xs =>
    have : x = c := by simpa using h
    simp [this]

theorem mem_of_getLastq (l : List Char) (c : Char) (h : l.getLast? = some c) : c ∈ l := by
  rw [← List.head?_reverse] at h
  exact List.mem_reverse.mp (mem_of_headq _ _ h)

theorem allowed_not_pyspace (c : Char) (h1 : allowedSenderChar c = true) (h2 : c ≠ ' ') :
    isPySpace c = false := by
  by_contra hsp
  simp only [Bool.not_eq_false] at hsp
  unfold isPySpace at hsp
  simp only [Bool.or_eq_true, decide_eq_true_eq] at hsp
  rcases hsp with ((((hc | hc) | hc) | hc) | hc) | hc <;> subst hc <;>
    first
    | exact h2 rfl
    | simp [allowedSenderChar] at h1

theorem pyStrip_lt_of_head (a : List Char) (c : Char) (hh : a.head? = some c)
    (hsp : isPySpace c = true) : (pyStrip a).length < a.length := by
  cases a with
  | nil => simp at hh
  | cons x xs =>
    have hx : x = c := by simpa using hh
    subst hx
    unfold pyStrip
    rw [List.dropWhile_cons, if_pos hsp]
    have h1 : (List.dropWhile isPySpace xs).length ≤ xs.length :=
      (List.dropWhile_suffix _).length_le
    have h2 : (List.dropWhile isPySpace ((List.dropWhile isPySpace xs).reverse)).length ≤
        ((List.dropWhile isPySpace xs).reverse).length :=
      (List.dropWhile_suffix _).length_le
    simp only [List.length_reverse, List.length_cons] at *
    omega

theorem pyStrip_lt_of_getLast (a : List Char) (c : Char) (hl : a.getLast? = some c)
    (hsp : isPySpace c = true) : (pyStrip a).length < a.length := by
  have hane : a ≠ [] := by
    intro hnil
    rw [hnil] at hl
    simp at hl
  by_cases h0 : a.dropWhile isPySpace = []
  · unfold pyStrip
    rw [h0]
    simpa using List.length_pos_of_ne_nil hane
  · obtain ⟨t, ht⟩ := List.dropWhile_suffix (l := a) isPySpace
    have hlast1 : (a.dropWhile isPySpace).getLast? = some c := by
      cases hg : (a.dropWhile isPySpace).getLast? with
      | none => exact absurd (List.getLast?_eq_none_iff.mp hg) h0
      | some y =>
        rw [← ht, List.getLast?_append, hg] at hl
        simpa using hl
    have hrev : (a.dropWhile isPySpace).reverse.head? = some c := by
      rw [List.head?_reverse]
      exact hlast1
    have hlen1 : (a.dropWhile isPySpace).length ≤ a.length :=
      (List.dropWhile_suffix _).length_le
    cases hre : (a.dropWhile isPySpace).reverse with
    | nil =>
      exact absurd (by simpa using congrArg List.length hre) (by
        simpa using List.length_pos_of_ne_nil h0 |>.ne')
    | cons y ys =>
      have hy : y = c := by
        rw [hre] at hrev
        simpa using hrev
      subst hy
      unfold pyStrip
      rw [hre, List.dropWhile_cons, if_pos hsp]
      have h2 : (List.dropWhile isPySpace ys).length ≤ ys.length :=
        (List.dropWhile_suffix _).length_le
      have h3 : (a.dropWhile isPySpace).length = ys.length + 1 := by
        have := congrArg List.length hre
        simpa using this
      simp only [List.length_reverse]
      omega

theorem pyStrip_eq_self (a : List Char)
    (hh : ∀ c, a.head? = some c → isPySpace c = false)
    (hl : ∀ c, a.getLast? = some c → isPySpace c = false) : pyStrip a = a := by
  have h1 : a.dropWhile isPySpace = a := by
    cases a with
    | nil => rfl
    | cons x xs =>
      rw [List.dropWhile_cons, if_neg]
      simp [hh x rfl]
  have h2 : a.reverse.dropWhile isPySpace = a.reverse := by
    cases hr : a.reverse with
    | nil => rfl
    | cons y ys =>
      rw [List.dropWhile_cons, if_neg]
      have hy : a.getLast? = some y := by
        rw [← List.head?_reverse, hr]
        rfl
      simp [hl y hy]
  unfold pyStrip
  rw [h1, h2, List.reverse_reverse]

theorem one_to_nine_unicode (c : Char) (h : isAsciiOneToNine c = true) :
    isUnicodeDigit c = true := by
  unfold isAsciiOneToNine at h
  unfold isUnicodeDigit ndRanges
  simp only [Bool.and_eq_true, decide_eq_true_eq, List.any_cons, List.any_nil,
    Bool.or_eq_true] at h ⊢
  omega

theorem e164Core_iff (a : List Char) : e164Core a = true ↔ specE164 a := by
  cases a with
  | nil =>
    constructor
    · intro h
      simp [e164Core] at h
    · rintro ⟨-, h7, -⟩
      simp at h7
  | cons c rest =>
    unfold e164Core specE164
    simp only [Bool.and_eq_true, decide_eq_true_eq, List.all_eq_true,
      List.length_cons]
    constructor
    · rintro ⟨⟨⟨hc, hall⟩, h6⟩, h14⟩
      refine ⟨?_, by omega, by omega, ?_⟩
      · intro x hx
        rcases List.mem_cons.mp hx with h | h
        · rw [h]
          exact one_to_nine_unicode c hc
        · exact hall x h
      · simpa [Option.any] using hc
    · rintro ⟨hdig, h7, h15, hh⟩
      have hc : isAsciiOneToNine c = true := by
        simpa [Option.any] using hh
      exact ⟨⟨⟨hc, fun x hx => hdig x (List.mem_cons_of_mem _ hx)⟩, by omega⟩, by omega⟩

theorem is_valid_e164_address_iff (a : List Char) :
    is_valid_e164_address a = true ↔
      (specE164 a ∨ (a.getLast? = some '\n' ∧ specE164 a.dropLast)) := by
  unfold is_valid_e164_address
  cases a with
  | nil =>
    constructor
    · intro h
      simp at h
    · rintro (⟨-, h7, -⟩ | ⟨h, -⟩)
      · simp at h7
      · simp at h
  | cons x xs =>
    simp only [List.isEmpty_cons, Bool.not_false, Bool.true_and, Bool.or_eq_true,
      Bool.and_eq_true, beq_iff_eq, e164Core_iff]

theorem is_valid_alphanumeric_address_iff (a : List Char) :
    is_valid_alphanumeric_address a = true ↔ specAlnum a := by
  unfold is_valid_alphanumeric_address specAlnum
  constructor
  · intro h
    simp only [Bool.and_eq_true, beq_iff_eq, Bool.not_eq_true', decide_eq_true_eq] at h
    obtain ⟨⟨⟨hne, hlen⟩, hreg⟩, hstrip⟩ := h
    have hanil : a ≠ [] := by
      intro hnil
      rw [hnil] at hne
      simp at hne
    unfold alnumRegexMatch at hreg
    simp only [Bool.or_eq_true, Bool.and_eq_true, beq_iff_eq, Bool.not_eq_true'] at hreg
    rcases hreg with ⟨-, hall⟩ | ⟨⟨hlast, -⟩, -⟩
    · have hall' : ∀ c ∈ a, allowedSenderChar c = true := by
        simpa [List.all_eq_true] using hall
      refine ⟨hanil, hlen, hall', ?_, ?_⟩
      · intro hhead
        have := pyStrip_lt_of_head a ' ' hhead (by decide)
        rw [hstrip] at this
        omega
      · intro hlast2
        have := pyStrip_lt_of_getLast a ' ' hlast2 (by decide)
        rw [hstrip] at this
        omega
    · have := pyStrip_lt_of_getLast a '\n' hlast (by decide)
      rw [hstrip] at this
      omega
  · rintro ⟨hne, hlen, hall, hhead, hlast⟩
    have hniff : a.isEmpty = false := by
      cases a
      · exact absurd rfl hne
      · rfl
    have hreg : alnumRegexMatch a = true := by
      have hallb : a.all allowedSenderChar = true := List.all_eq_true.mpr hall
      simp [alnumRegexMatch, hniff, hallb]
    have hstrip : pyStrip a = a := by
      apply pyStrip_eq_self
      · intro c hc
        apply allowed_not_pyspace c (hall c (mem_of_headq a c hc))
        intro hceq
        rw [hceq] at hc
        exact hhead hc
      · intro c hc
        apply allowed_not_pyspace c (hall c (mem_of_getLastq a c hc))
        intro hceq
        rw [hceq] at hc
        exact hlast hc
    simp [hniff, hlen, hreg, hstrip]

/-- C6 counterexample, three parts.  (1) The string `"1234567\n"` (seven
digits followed by a newline) is accepted by `validate_source_address` —
Python's `$` anchor in `re.match(r'^[1-9]\d{6,14}$', ...)` also matches just
before one final newline — although the string is not made of digits and is
not a valid alphanumeric sender id.  (2) The claim's example `"0447700900"`
(leading zero) is NOT rejected: it fails the E.164 test but passes the
alphanumeric test, digits being part of the allowed class.  (3) `'1'`
followed by six Arabic-Indic digits (U+0666) is accepted — Python `\d`
matches every Unicode decimal digit — although the string is not "digits
only" in the claim's ASCII sense (its tail characters fail `Char.isDigit`)
and is not a valid alphanumeric sender id either. -/
theorem validate_accepts_trailing_newline :
    (validate_source_address e164NewlineAddr = true ∧
      ¬ specE164 e164NewlineAddr ∧ ¬ specAlnum e164NewlineAddr) ∧
    (validate_source_address ("0447700900".toList) = true ∧
      is_valid_alphanumeric_address ("0447700900".toList) = true) ∧
    (validate_source_address arabicDigitAddr = true ∧
      (∃ c ∈ arabicDigitAddr, c.isDigit = false) ∧ ¬ specAlnum arabicDigitAddr) := by
  refine ⟨⟨by decide, ?_, ?_⟩, ⟨by decide, by decide⟩, by decide, by decide, ?_⟩
  · unfold specE164
    decide
  · unfold specAlnum
    decide
  · unfold specAlnum
    decide

/-- C6 amended: `validate_source_address` accepts a string exactly when it
is an E.164-shaped number — 7-15 characters, the first an ASCII digit 1-9,
every character a Unicode decimal digit (Python `\d` is not restricted to
ASCII), no '+' — or such a number followed by one trailing newline (an
artifact of the Python `$` anchor), or a non-empty alphanumeric sender id
(length at most 11, every character a Latin letter, digit, Nordic vowel,
space, '.', '_', '&' or '-', with no leading or trailing space); it raises
`ValueError` otherwise.  The claim's concrete examples hold except
`"0447700900"`: a string of at most 11 digits with a leading zero fails the
E.164 test but passes the alphanumeric test (digits belong to the allowed
class), so it is accepted. -/
theorem validate_source_address_characterization :
    (∀ a, validate_source_address a = true ↔
      (specE164 a ∨ (a.getLast? = some '\n' ∧ specE164 a.dropLast) ∨ specAlnum a)) ∧
    validate_source_address ("447700900000".toList) = true ∧
    validate_source_address ("0447700900".toList) = true ∧
    validate_source_address ("ACME".toList) = true ∧
    validate_source_address ("AB ".toList) = false ∧
    validate_source_address ("ABCDEFGHIJKL".toList) = false := by
  refine ⟨?_, by decide, by decide, by decide, by decide, by decide⟩
  intro a
  unfold validate_source_address
  constructor
  · intro h
    simp only [Bool.and_eq_true, Bool.or_eq_true] at h
    rcases h.2 with he | ha
    · rcases (is_valid_e164_address_iff a).mp he with h1 | h1
      · exact Or.inl h1
      · exact Or.inr (Or.inl h1)
    · exact Or.inr (Or.inr ((is_valid_alphanumeric_address_iff a).mp ha))
  · intro h
    have hne : a ≠ [] := by
      rcases h with h1 | ⟨h1, -⟩ | h1
      · intro hnil
        rw [hnil] at h1
        rcases h1 with ⟨-, h7, -⟩
        simp at h7
      · intro hnil
        rw [hnil] at h1
        simp at h1
      · exact h1.1
    have hniff : (!a.isEmpty) = true := by
      cases a
      · exact absurd rfl hne
      · rfl
    simp only [Bool.and_eq_true, Bool.or_eq_true]
    refine ⟨hniff, ?_⟩
    rcases h with h1 | h1 | h1
    · exact Or.inl ((is_valid_e164_address_iff a).mpr (Or.inl h1))
    · exact Or.inl ((is_valid_e164_address_iff a).mpr (Or.inr h1))
    · exact Or.inr ((is_valid_alphanumeric_address_iff a).mpr h1)
